import Mathlib

/-!
Verification of the KubeChat RAG API core (services/rag-api/app/main.py).

Python strings are sequences of Unicode code points (lone surrogates included),
embedded here as lists of naturals.  External collaborators (embedding provider,
vector index, generation provider, file system) are modelled as oracles supplied
in an environment record, and every outbound call is recorded in an event trace
so that claims about which calls are made become statements about the trace.
-/

namespace KubeChat

/-- A Python string: a finite sequence of Unicode code points. -/
abbrev PyStr := List Nat

/-- Code points of a Lean string literal (used for surrogate-free literals). -/
def strCps (s : String) : PyStr := s.data.map Char.toNat

/-- The code points for which Python's `str.isspace()` holds, i.e. exactly the
separators that `str.split()` with no argument splits on (Unicode whitespace
plus the C0 separators 0x1C-0x1F). -/
def pySpaceCps : List Nat :=
  [9, 10, 11, 12, 13, 28, 29, 30, 31, 32, 133, 160, 0x1680,
   0x2000, 0x2001, 0x2002, 0x2003, 0x2004, 0x2005, 0x2006, 0x2007,
   0x2008, 0x2009, 0x200A, 0x2028, 0x2029, 0x202F, 0x205F, 0x3000]

def isPySpace (c : Nat) : Bool := pySpaceCps.contains c

/-- Helper for `pySplit`: `acc` holds the current token reversed. -/
def pySplitAux : PyStr → PyStr → List PyStr
  | acc, [] => if acc = [] then [] else [acc.reverse]
  | acc, c :: rest =>
    if isPySpace c then
      if acc = [] then pySplitAux [] rest else acc.reverse :: pySplitAux [] rest
    else pySplitAux (c :: acc) rest

/-- Python `s.split()`: split on runs of whitespace, dropping empty tokens. -/
def pySplit (s : PyStr) : List PyStr := pySplitAux [] s

/-- Python `" ".join(s.split())`: collapse whitespace runs to single spaces and
strip leading/trailing whitespace. -/
def collapseWs (s : PyStr) : PyStr := List.intercalate [32] (pySplit s)

/-- Canonical decomposition, restricted to the character fragment exercised in
this development: U+00E9 (é) canonically decomposes to U+0065 (e) followed by
U+0301 (combining acute accent); every other code point appearing in this file
is its own canonical decomposition.  Faithful to the Unicode data for these
characters. -/
def nfcDecompose (s : PyStr) : PyStr :=
  s.flatMap (fun c => if c = 0xE9 then [0x65, 0x301] else [c])

/-- Canonical composition on the fragment.  The only primary composite in the
fragment is (U+0065, U+0301) ↦ U+00E9, the only non-starter is U+0301, and all
non-starters share combining class 230, so a mark composes with a starter
exactly when it immediately follows it, and canonical reordering is the
identity.  Under those Unicode-data facts this scan is the standard
composition pass. -/
def nfcCompose : PyStr → PyStr
  | [] => []
  | [c] => [c]
  | c :: d :: rest =>
    if c = 0x65 ∧ d = 0x301 then 0xE9 :: nfcCompose rest
    else c :: nfcCompose (d :: rest)

/-- Model of `unicodedata.normalize("NFC", s)` on the fragment: canonical decomposition
followed by canonical composition (reordering is the identity here, see
`nfcCompose`).  Lone surrogates have no decomposition and combining class 0,
so they pass through unchanged, as in CPython. -/
def pyNFC (s : PyStr) : PyStr := nfcCompose (nfcDecompose s)

/-- A lone UTF-16 surrogate code point: not encodable as UTF-8, hence dropped
by `encode("utf-8", "ignore")`. -/
def isSurrogate (c : Nat) : Bool := decide (0xD800 ≤ c) && decide (c ≤ 0xDFFF)

/-- Embedding of `sanitize` (main.py lines 17-20): NFC-normalize, then round-trip through
UTF-8 with `errors="ignore"`, which silently drops exactly the lone
surrogates. -/
def sanitize (s : PyStr) : PyStr := (pyNFC s).filter (fun c => !isSurrogate c)

/-- The `while start < len(s)` loop of `chunk_text` (main.py lines 75-81),
written with explicit fuel.  Python's `s[start:end]` is
`(s.drop start).take (end - start)`; Python's `max(0, end - overlap)` over
mathematical integers coincides with truncated subtraction on `Nat`.  Under
the documented precondition `size > overlap` every iteration advances `start`
by `size - overlap ≥ 1`, so fuel `s.length + 1` is never exhausted and this
function agrees with the source's unbounded loop; without the precondition the
source loops forever. -/
def chunkLoopF : Nat → PyStr → Nat → Nat → Nat → List PyStr
  | 0, _, _, _, _ => []
  | fuel + 1, s, size, overlap, start =>
    if start < s.length then
      let e := min (start + size) s.length
      let c := (s.drop start).take (e - start)
      if e = s.length then [c]
      else c :: chunkLoopF fuel s size overlap (max 0 (e - overlap))
    else []

/-- Embedding of `chunk_text` (main.py lines 71-82): collapse whitespace, sanitize, then
emit overlapping windows.  The `if not s: return []` early exit coincides with
the loop doing nothing on an empty string. -/
def chunk_text (s : PyStr) (size overlap : Nat) : List PyStr :=
  let t := sanitize (collapseWs s)
  chunkLoopF (t.length + 1) t size overlap 0

/-- Ghost companion of `chunkLoopF` recording the start offset of each emitted
chunk; mirrors the recursion of `chunkLoopF` exactly. -/
def chunkStartsF : Nat → Nat → Nat → Nat → Nat → List Nat
  | 0, _, _, _, _ => []
  | fuel + 1, len, size, overlap, start =>
    if start < len then
      let e := min (start + size) len
      if e = len then [start]
      else start :: chunkStartsF fuel len size overlap (max 0 (e - overlap))
    else []

/-- The whitespace-collapsed, sanitized string that the chunking loop of
`chunk_text` actually windows (the value of the local `s` after line 72). -/
def collapsed (s : PyStr) : PyStr := sanitize (collapseWs s)

/-- The window of `t` emitted for a chunk starting at offset `st`:
`t[st : min (st + size) (len t)]`. -/
def chunkWindow (t : PyStr) (size st : Nat) : PyStr :=
  (t.drop st).take (min (st + size) t.length - st)

/-- Start offsets of the chunks `chunk_text` emits on collapsed string `t`. -/
def chunkStarts (t : PyStr) (size overlap : Nat) : List Nat :=
  chunkStartsF (t.length + 1) t.length size overlap 0

lemma chunkLoopF_eq_map (s : PyStr) (size overlap : Nat) :
    ∀ fuel start, chunkLoopF fuel s size overlap start =
      (chunkStartsF fuel s.length size overlap start).map (chunkWindow s size) := by
  intro fuel
  induction fuel with
  | zero => intro start; simp [chunkLoopF, chunkStartsF]
  | succ n ih =>
    intro start
    simp only [chunkLoopF, chunkStartsF]
    by_cases h : start < s.length
    · simp only [h, if_true]
      by_cases he : min (start + size) s.length = s.length
      · simp [he, chunkWindow]
      · simp [he, chunkWindow, ih]
    · simp [h]

lemma chunk_text_eq_map (s : PyStr) (size overlap : Nat) :
    chunk_text s size overlap =
      (chunkStarts (collapsed s) size overlap).map (chunkWindow (collapsed s) size) := by
  simp [chunk_text, chunkStarts, collapsed, chunkLoopF_eq_map]

/-- Consecutive chunk starts are `size - overlap` apart, and every non-final
start leaves at least `size` characters unread. -/
lemma chunkStartsF_chain (len size overlap : Nat) (hso : overlap < size) :
    ∀ fuel start, List.Chain'
      (fun a b => b = a + (size - overlap) ∧ a + size < len)
      (chunkStartsF fuel len size overlap start) := by
  intro fuel
  induction fuel with
  | zero => intro start; simp [chunkStartsF]
  | succ n ih =>
    intro start
    simp only [chunkStartsF]
    by_cases h : start < len
    · simp only [h, if_true]
      by_cases he : min (start + size) len = len
      · simp [he]
      · simp only [he, if_false]
        have hlt : start + size < len := by omega
        have hs : max 0 (min (start + size) len - overlap) = start + (size - overlap) := by
          omega
        refine List.Chain'.cons' ?_ ?_
        · rw [hs]; exact ih _
        · intro y hy
          refine ⟨?_, hlt⟩
          rcases n with _ | m
          · simp [chunkStartsF] at hy
          · simp only [chunkStartsF] at hy
            by_cases h2 : start + (size - overlap) < len
            · rw [hs] at hy
              simp only [h2, if_true] at hy
              by_cases h3 : min (start + (size - overlap) + size) len = len
              · simp [h3] at hy; omega
              · simp [h3] at hy; omega
            · rw [hs] at hy; simp [h2] at hy
    · simp [h]

lemma chunkStartsF_head (len size overlap : Nat) :
    ∀ fuel start, 0 < fuel → start < len →
      (chunkStartsF fuel len size overlap start).head? = some start := by
  intro fuel start hf h
  rcases fuel with _ | n
  · omega
  · simp only [chunkStartsF, h, if_true]
    by_cases he : min (start + size) len = len <;> simp [he]

/-- Coverage: with adequate fuel, every position of `[start, len)` lies inside
the window of some emitted start. -/
lemma chunkStartsF_cover (len size overlap : Nat) (hso : overlap < size) :
    ∀ fuel start i, len ≤ start + fuel → start ≤ i → i < len →
      ∃ st ∈ chunkStartsF fuel len size overlap start,
        st ≤ i ∧ i < min (st + size) len := by
  intro fuel
  induction fuel with
  | zero => intro start i hf hsi hil; omega
  | succ n ih =>
    intro start i hf hsi hil
    have h : start < len := by omega
    simp only [chunkStartsF, h, if_true]
    by_cases he : min (start + size) len = len
    · exact ⟨start, by simp [he], hsi, by omega⟩
    · have hlt : start + size < len := by omega
      simp only [he, if_false]
      by_cases hi : i < start + size
      · exact ⟨start, by simp, hsi, by omega⟩
      · have hs : max 0 (min (start + size) len - overlap) = start + (size - overlap) := by
          omega
        rw [hs]
        obtain ⟨st, hmem, h1, h2⟩ := ih (start + (size - overlap)) i (by omega) (by omega) hil
        exact ⟨st, List.mem_cons_of_mem _ hmem, h1, h2⟩

/-- Chunk-count bound: `k * (size - overlap) ≤ (len - start) + (size - overlap) - 1`
where `k` is the number of emitted chunks. -/
lemma chunkStartsF_count (len size overlap : Nat) (hso : overlap < size) :
    ∀ fuel start, start < len →
      (chunkStartsF fuel len size overlap start).length * (size - overlap) ≤
        (len - start) + (size - overlap) - 1 := by
  intro fuel
  induction fuel with
  | zero => intro start h; simp [chunkStartsF]
  | succ n ih =>
    intro start h
    simp only [chunkStartsF, h, if_true]
    by_cases he : min (start + size) len = len
    · simp only [he, if_true, List.length_singleton, one_mul]; omega
    · have hlt : start + size < len := by omega
      simp only [he, if_false, List.length_cons]
      have hs : max 0 (min (start + size) len - overlap) = start + (size - overlap) := by
        omega
      rw [hs]
      have := ih (start + (size - overlap)) (by omega)
      rw [Nat.succ_mul]
      generalize hK : (chunkStartsF n len size overlap
        (start + (size - overlap))).length * (size - overlap) = K at this ⊢
      omega

lemma chunkWindow_length (t : PyStr) (size st : Nat) :
    (chunkWindow t size st).length =
      min (min (st + size) t.length - st) (t.length - st) := by
  simp [chunkWindow]

lemma chunkWindow_drop_eq_take (t : PyStr) (size overlap st : Nat)
    (hso : overlap < size) (hlt : st + size < t.length) :
    (chunkWindow t size st).drop (size - overlap) =
      (chunkWindow t size (st + (size - overlap))).take overlap := by
  have h1 : min (st + size) t.length - st = size := by omega
  have h2 : min (st + (size - overlap) + size) t.length - (st + (size - overlap)) ≥
      overlap := by omega
  simp only [chunkWindow, h1]
  rw [List.drop_take, List.drop_drop, List.take_take]
  have h3 : size - (size - overlap) = overlap := by omega
  have h4 : min overlap (min (st + (size - overlap) + size) t.length -
      (st + (size - overlap))) = overlap := by omega
  rw [h3, h4]

/-- C1: for `size > overlap ≥ 0`, `chunk_text` first collapses whitespace runs
(and sanitizes), then windows the collapsed string so that: every position of
the collapsed string is covered by some chunk; every chunk has length at most
`size`; every non-final chunk has length exactly `size`; adjacent chunks
overlap in exactly `overlap` characters (the trailing `overlap` characters of
a chunk are the leading `overlap` characters of the next); and the number of
chunks is at most `ceil (len / (size - overlap))`. -/
theorem C1_chunk_text_spec (s : PyStr) (size overlap : Nat) (hso : overlap < size) :
    chunk_text s size overlap =
        (chunkStarts (collapsed s) size overlap).map (chunkWindow (collapsed s) size) ∧
    (∀ i, i < (collapsed s).length →
        ∃ st ∈ chunkStarts (collapsed s) size overlap,
          st ≤ i ∧ i < min (st + size) (collapsed s).length) ∧
    (∀ c ∈ chunk_text s size overlap, c.length ≤ size) ∧
    (∀ j (hj : j + 1 < (chunk_text s size overlap).length),
        ((chunk_text s size overlap).get ⟨j, by omega⟩).length = size) ∧
    (∀ j (hj : j + 1 < (chunk_text s size overlap).length),
        ((chunk_text s size overlap).get ⟨j, by omega⟩).drop (size - overlap) =
          ((chunk_text s size overlap).get ⟨j + 1, hj⟩).take overlap) ∧
    (chunk_text s size overlap).length ≤
      ((collapsed s).length + (size - overlap) - 1) / (size - overlap) := by
  have hmap := chunk_text_eq_map s size overlap
  have hchain := List.chain'_iff_get.mp
    (show List.Chain' (fun a b => b = a + (size - overlap) ∧
        a + size < (collapsed s).length) (chunkStarts (collapsed s) size overlap) from
      chunkStartsF_chain (collapsed s).length size overlap hso
        ((collapsed s).length + 1) 0)
  have hlen : (chunk_text s size overlap).length =
      (chunkStarts (collapsed s) size overlap).length := by
    rw [hmap, List.length_map]
  have hget : ∀ j (hj : j < (chunk_text s size overlap).length),
      (chunk_text s size overlap).get ⟨j, hj⟩ =
        chunkWindow (collapsed s) size
          ((chunkStarts (collapsed s) size overlap).get ⟨j, by omega⟩) := by
    intro j hj
    simp only [List.get_eq_getElem]
    have hj2 : j < ((chunkStarts (collapsed s) size overlap).map
        (chunkWindow (collapsed s) size)).length := by
      rw [← hmap]; exact hj
    calc (chunk_text s size overlap)[j]
        = ((chunkStarts (collapsed s) size overlap).map
            (chunkWindow (collapsed s) size))[j] := by
          congr 1
      _ = chunkWindow (collapsed s) size
            ((chunkStarts (collapsed s) size overlap)[j]) := List.getElem_map _
  have hR : ∀ j (hj : j + 1 < (chunkStarts (collapsed s) size overlap).length),
      (chunkStarts (collapsed s) size overlap).get ⟨j + 1, hj⟩ =
          (chunkStarts (collapsed s) size overlap).get ⟨j, by omega⟩ +
            (size - overlap) ∧
        (chunkStarts (collapsed s) size overlap).get ⟨j, by omega⟩ + size <
          (collapsed s).length := by
    intro j hj
    exact hchain j (by omega)
  refine ⟨hmap, ?_, ?_, ?_, ?_, ?_⟩
  · intro i hi
    exact chunkStartsF_cover (collapsed s).length size overlap hso
      ((collapsed s).length + 1) 0 i (by omega) (by omega) hi
  · intro c hc
    rw [hmap] at hc
    obtain ⟨st, -, rfl⟩ := List.mem_map.mp hc
    rw [chunkWindow_length]
    omega
  · intro j hj
    rw [hget j (by omega), chunkWindow_length]
    have := (hR j (by omega)).2
    omega
  · intro j hj
    rw [hget j (by omega), hget (j + 1) hj]
    obtain ⟨heq, hlt⟩ := hR j (by omega)
    rw [heq]
    exact chunkWindow_drop_eq_take _ _ _ _ hso hlt
  · rw [hlen]
    by_cases h0 : 0 < (collapsed s).length
    · have hcount : (chunkStarts (collapsed s) size overlap).length * (size - overlap) ≤
          ((collapsed s).length - 0) + (size - overlap) - 1 :=
        chunkStartsF_count (collapsed s).length size overlap hso
          ((collapsed s).length + 1) 0 h0
      rw [Nat.le_div_iff_mul_le (by omega)]
      omega
    · have : (collapsed s).length = 0 := by omega
      simp only [chunkStarts, this]
      simp [chunkStartsF]

/-- Witness for C1 at the concrete input "abcdefghij", size 4, overlap 2. -/
theorem C1_chunk_text_spec_witness :
    (2 : Nat) < 4 ∧
    chunk_text (strCps "abcdefghij") 4 2 =
        (chunkStarts (collapsed (strCps "abcdefghij")) 4 2).map
          (chunkWindow (collapsed (strCps "abcdefghij")) 4) ∧
    (chunk_text (strCps "abcdefghij") 4 2).length ≤
      ((collapsed (strCps "abcdefghij")).length + (4 - 2) - 1) / (4 - 2) :=
  ⟨by decide,
   (C1_chunk_text_spec (strCps "abcdefghij") 4 2 (by decide)).1,
   (C1_chunk_text_spec (strCps "abcdefghij") 4 2 (by decide)).2.2.2.2.2⟩

/-- C6: chunking "abcdefghij" with size 4 and overlap 2 yields exactly
["abcd", "cdef", "efgh", "ghij"]. -/
theorem C6_chunk_example :
    chunk_text (strCps "abcdefghij") 4 2 =
      [strCps "abcd", strCps "cdef", strCps "efgh", strCps "ghij"] := by
  decide

/-- C8: for `size > overlap ≥ 0`, `chunk_text` on the empty string, and on any
input whose whitespace-collapsed sanitized form is empty, returns zero
chunks. -/
theorem C8_chunk_text_empty (size overlap : Nat) (hso : overlap < size) :
    chunk_text [] size overlap = [] ∧
    ∀ s : PyStr, collapsed s = [] → chunk_text s size overlap = [] := by
  constructor
  · rfl
  · intro s h
    simp only [collapsed] at h
    simp only [chunk_text, h]
    rfl

/-- Witness for C8 at size 2, overlap 1, with the all-whitespace input " ". -/
theorem C8_chunk_text_empty_witness :
    chunk_text [] 2 1 = [] ∧ chunk_text [32] 2 1 = [] :=
  ⟨(C8_chunk_text_empty 2 1 (by decide)).1,
   (C8_chunk_text_empty 2 1 (by decide)).2 [32] (by decide)⟩

lemma nfcDecompose_no_composite (s : PyStr) :
    ∀ c ∈ nfcDecompose s, c ≠ 0xE9 := by
  intro c hc
  simp only [nfcDecompose, List.mem_flatMap] at hc
  obtain ⟨a, -, ha⟩ := hc
  by_cases h : a = 0xE9
  · simp [h] at ha
    omega
  · simp [h] at ha
    omega

lemma nfcDecompose_nfcCompose (t : PyStr) (h : ∀ c ∈ t, c ≠ 0xE9) :
    nfcDecompose (nfcCompose t) = t := by
  induction t using nfcCompose.induct with
  | case1 => simp [nfcCompose, nfcDecompose]
  | case2 c =>
    have hc := h c (by simp)
    simp [nfcCompose, nfcDecompose, hc]
  | case3 c d rest hcd ih =>
    obtain ⟨hc, hd⟩ := hcd
    subst hc hd
    rw [nfcCompose, if_pos ⟨rfl, rfl⟩]
    have : nfcDecompose (0xE9 :: nfcCompose rest) =
        0x65 :: 0x301 :: nfcDecompose (nfcCompose rest) := by
      simp [nfcDecompose]
    rw [this, ih (fun c hc => h c (by simp [hc]))]
  | case4 c d rest hcd ih =>
    rw [nfcCompose, if_neg hcd]
    have hc := h c (by simp)
    have : nfcDecompose (c :: nfcCompose (d :: rest)) =
        c :: nfcDecompose (nfcCompose (d :: rest)) := by
      simp [nfcDecompose, hc]
    rw [this, ih (fun x hx => h x (List.mem_cons_of_mem _ hx))]

lemma pyNFC_idem (s : PyStr) : pyNFC (pyNFC s) = pyNFC s := by
  simp only [pyNFC]
  rw [nfcDecompose_nfcCompose _ (nfcDecompose_no_composite s)]

lemma nfcDecompose_no_surrogate (s : PyStr) (h : ∀ c ∈ s, isSurrogate c = false) :
    ∀ c ∈ nfcDecompose s, isSurrogate c = false := by
  intro c hc
  simp only [nfcDecompose, List.mem_flatMap] at hc
  obtain ⟨a, ha, hca⟩ := hc
  by_cases he : a = 0xE9
  · simp [he] at hca
    rcases hca with rfl | rfl <;> simp [isSurrogate]
  · simp [he] at hca
    exact hca ▸ h a ha

lemma nfcCompose_no_surrogate (t : PyStr) (h : ∀ c ∈ t, isSurrogate c = false) :
    ∀ c ∈ nfcCompose t, isSurrogate c = false := by
  induction t using nfcCompose.induct with
  | case1 => simp [nfcCompose]
  | case2 c => simpa [nfcCompose] using h
  | case3 c d rest hcd ih =>
    rw [nfcCompose, if_pos hcd]
    intro x hx
    rcases List.mem_cons.mp hx with rfl | hx
    · simp [isSurrogate]
    · exact ih (fun y hy => h y (by simp [List.mem_cons_of_mem, hy])) x hx
  | case4 c d rest hcd ih =>
    rw [nfcCompose, if_neg hcd]
    intro x hx
    rcases List.mem_cons.mp hx with rfl | hx
    · exact h x (by simp)
    · exact ih (fun y hy => h y (List.mem_cons_of_mem _ hy)) x hx

lemma pyNFC_no_surrogate (s : PyStr) (h : ∀ c ∈ s, isSurrogate c = false) :
    ∀ c ∈ pyNFC s, isSurrogate c = false :=
  nfcCompose_no_surrogate _ (nfcDecompose_no_surrogate s h)

/-- C7 counterexample: `sanitize` is not idempotent.  On the string
U+0065 U+D800 U+0301 (e, lone surrogate, combining acute) the first pass
leaves e + combining acute uncomposed (the surrogate blocks composition) and
then drops the surrogate; the second pass composes the now-adjacent pair to
é (U+00E9).  CPython reproduces this behaviour exactly. -/
theorem C7_sanitize_counterexample :
    sanitize (sanitize [0x65, 0xD800, 0x301]) ≠ sanitize [0x65, 0xD800, 0x301] := by
  decide

/-- C7 amended: `sanitize` is idempotent on every string containing no lone
surrogate code point (in particular on every valid, UTF-8-encodable string);
only surrogate removal can expose a new composable pair to the second pass. -/
theorem C7_sanitize_idem (s : PyStr) (h : ∀ c ∈ s, isSurrogate c = false) :
    sanitize (sanitize s) = sanitize s := by
  have hfix : sanitize s = pyNFC s := by
    simp only [sanitize]
    rw [List.filter_eq_self]
    intro c hc
    simp [pyNFC_no_surrogate s h c hc]
  rw [hfix]
  have h2 : ∀ c ∈ pyNFC s, isSurrogate c = false := pyNFC_no_surrogate s h
  have hfix2 : sanitize (pyNFC s) = pyNFC (pyNFC s) := by
    simp only [sanitize]
    rw [List.filter_eq_self]
    intro c hc
    have h3 : ∀ c ∈ pyNFC (pyNFC s), isSurrogate c = false :=
      pyNFC_no_surrogate _ h2
    simp [h3 c hc]
  rw [hfix2, pyNFC_idem]

/-- Witness for the amended C7 at the surrogate-free input "abc". -/
theorem C7_sanitize_idem_witness :
    sanitize (sanitize (strCps "abc")) = sanitize (strCps "abc") :=
  C7_sanitize_idem (strCps "abc") (by decide)

/-- Embedding coordinates and similarity scores are IEEE floats in the source;
the core never inspects them arithmetically (vectors are passed through, only
the probe vector's length is read, scores are copied into sources), so they
are embedded as integers to keep equality decidable. -/
abbrev Vec := List Int

abbrev Score := Int

/-- The embedding provider as the core sees it: sanitized text in, vector
out.  A non-success HTTP response raises in the source; the oracle models the
successful path, which is the only one the verified claims constrain. -/
abbrev Embedder := PyStr → Vec

/-- Environment-derived module configuration (COLLECTION_NAME, CHUNK_SIZE,
CHUNK_OVERLAP; defaults "docs", 800, 200). -/
structure Config where
  collection : String
  chunk_size : Nat
  chunk_overlap : Nat
  deriving DecidableEq

/-- A Qdrant point payload as written by `ingest` and read by `chat`;
`none` models an absent key or a `None` value. -/
structure Payload where
  path : Option PyStr
  chunk_id : Option Nat
  text : Option PyStr
  deriving DecidableEq

/-- A point upserted into the vector index.  `uuid4().hex` is modelled by a
fresh counter; only freshness of identifiers is observable to the core. -/
structure Point where
  id : Nat
  vector : Vec
  payload : Payload
  deriving DecidableEq

/-- A search hit: `h.payload` may be `None`, hence the `Option`. -/
structure Hit where
  payload : Option Payload
  score : Score
  deriving DecidableEq

/-- The only filter shape the source builds:
`Filter(must=[FieldCondition(key=..., match=MatchValue(value=...))])`. -/
structure QFilter where
  key : String
  matchValue : PyStr
  deriving DecidableEq

/-- One outbound call to an external collaborator, in issue order. -/
inductive Event where
  | embedCall (text : PyStr)
  | searchCall (collection : String) (vec : Vec) (limit : Nat)
      (filter : Option QFilter)
  | genCall (prompt : PyStr) (numPredict numGpu : Int)
  | getCollections
  | createCollection (name : String) (dim : Nat)
  | upsertCall (collection : String) (points : List Point)
  deriving DecidableEq

/-- Embedding of `ollama_embed` (main.py lines 40-48): sanitizes its input, posts it to the
embedding provider, returns the vector; the posted (sanitized) text is
recorded as the call event. -/
def ollama_embed (embed : Embedder) (text : PyStr) : Vec × List Event :=
  let t := sanitize text
  (embed t, [Event.embedCall t])

inductive Metric where
  | cosine
  deriving DecidableEq

structure Collection where
  name : String
  dim : Nat
  metric : Metric
  deriving DecidableEq

/-- The vector index's collection table. -/
abbrev QdrantState := List Collection

/-- Semantics of `qc.recreate_collection`: drop any collection with the name, create a
fresh one with the given dimensionality and cosine metric. -/
def recreate_collection (st : QdrantState) (nm : String) (dim : Nat) :
    QdrantState :=
  st.filter (fun c => c.name ≠ nm) ++ [⟨nm, dim, Metric.cosine⟩]

def probeText : PyStr := strCps "dimension probe"

/-- Embedding of `ensure_collection` (main.py lines 49-56): probe the embedding dimension,
list collections, create the target collection only if its name is absent. -/
def ensure_collection (cfg : Config) (embed : Embedder) (st : QdrantState) :
    Nat × QdrantState × List Event :=
  let embedR := ollama_embed embed probeText
  let dim := embedR.1.length
  let names := st.map (fun c => c.name)
  if cfg.collection ∈ names then
    (dim, st, embedR.2 ++ [Event.getCollections])
  else
    (dim, recreate_collection st cfg.collection dim,
     embedR.2 ++ [Event.getCollections,
                  Event.createCollection cfg.collection dim])

/-- Result of giving a file to `pypdf.PdfReader`: a list of pages, each of
whose `extract_text()` returns a string or `None`, or a raised parse
exception carrying a message. -/
inductive PdfParse where
  | ok (pages : List (Option PyStr))
  | err (msg : PyStr)
  deriving DecidableEq

/-- A file visited by `ingest`'s recursive walk of the document root.
`rawText` is what `path.read_text(encoding="utf-8", errors="ignore")` would
return and `pdfParse` what `PdfReader` would produce; `read_text` consults
whichever its suffix dispatch selects. -/
structure FileEntry where
  relpath : PyStr
  suffix : PyStr
  isFile : Bool
  rawText : PyStr
  pdfParse : PdfParse
  deriving DecidableEq

/-- Python `str.lower()` restricted to ASCII, which is all the extension
comparison in the source can distinguish. -/
def pyLower (s : PyStr) : PyStr :=
  s.map (fun c => if 65 ≤ c ∧ c ≤ 90 then c + 32 else c)

def extTxt : PyStr := strCps ".txt"

def extMd : PyStr := strCps ".md"

def extPdf : PyStr := strCps ".pdf"

def recognizedExts : List PyStr := [extTxt, extMd, extPdf]

/-- The error-marker string `f"[PDF parse error: {e}]"`. -/
def pdfMarker (e : PyStr) : PyStr :=
  strCps "[PDF parse error: " ++ e ++ strCps "]"

/-- Embedding of `read_text` (main.py lines 58-69): text and markdown files are read with
undecodable bytes ignored; PDFs are parsed page by page with a `None`
extraction treated as empty, and a parse exception is caught and replaced by
the non-empty marker string; other suffixes yield the initial empty string.
Everything is sanitized on return. -/
def read_text (f : FileEntry) : PyStr :=
  let sfx := pyLower f.suffix
  if sfx = extTxt ∨ sfx = extMd then sanitize f.rawText
  else if sfx = extPdf then
    match f.pdfParse with
    | PdfParse.ok pages =>
        sanitize (List.intercalate [10] (pages.map (fun p => p.getD [])))
    | PdfParse.err e => sanitize (pdfMarker e)
  else sanitize []

structure IngestResponse where
  files_indexed : Nat
  chunks_indexed : Nat
  deriving DecidableEq

/-- Environment of one `ingest` request: the file-system enumeration
(`docs_path.rglob("*")`), the embedding provider, and the index state. -/
structure IngestEnv where
  fs : List FileEntry
  embed : Embedder
  collections : QdrantState

/-- The body of `ingest`'s per-file loop (main.py lines 122-137): extract,
skip when empty, chunk, embed each chunk, and build one point per chunk with
payload {path, chunk_id, text}.  Returns the points and the embed-call
events; `nextId` seeds the fresh point identifiers. -/
def processFile (cfg : Config) (embed : Embedder) (nextId : Nat)
    (f : FileEntry) : List Point × List Event :=
  let raw := read_text f
  if raw = [] then ([], [])
  else
    let chunks := chunk_text raw cfg.chunk_size cfg.chunk_overlap
    ((chunks.enum).map (fun p =>
        ⟨nextId + p.1, embed (sanitize p.2),
         ⟨some (sanitize f.relpath), some p.1, some p.2⟩⟩),
     chunks.map (fun ch => Event.embedCall (sanitize ch)))

/-- Embedding of `ingest` (main.py lines 107-139): enumerate matching files; return (0,0)
immediately if none; otherwise bootstrap the collection once and process each
file, upserting its points in one batch when non-empty and accumulating the
chunk total. -/
def ingest (cfg : Config) (env : IngestEnv) :
    IngestResponse × QdrantState × List Event :=
  let files := env.fs.filter (fun p =>
      p.isFile && recognizedExts.contains (pyLower p.suffix))
  if files = [] then (⟨0, 0⟩, env.collections, [])
  else
    let ec := ensure_collection cfg env.embed env.collections
    let r := files.foldl (fun (acc : Nat × Nat × List Event) f =>
        let pf := processFile cfg env.embed acc.2.1 f
        if pf.1 = [] then (acc.1, acc.2.1, acc.2.2 ++ pf.2)
        else (acc.1 + pf.1.length, acc.2.1 + pf.1.length,
              acc.2.2 ++ pf.2 ++ [Event.upsertCall cfg.collection pf.1]))
      (0, 0, ec.2.2)
    (⟨files.length, r.1⟩, ec.2.1, r.2.2)

structure ChatRequest where
  question : PyStr
  top_k : Nat := 5
  num_predict : Int := 256
  num_gpu : Int := 32
  path_exact : Option PyStr := none
  path_contains : Option PyStr := none
  deriving DecidableEq

structure Source where
  path : PyStr
  chunk_id : Option Nat
  score : Score
  deriving DecidableEq

structure ChatResponse where
  answer : PyStr
  sources : List Source
  deriving DecidableEq

/-- Environment of one `chat` request: embedding provider, vector-index
search, and generation provider (the last returns the `response` field of the
provider's JSON answer). -/
structure ChatEnv where
  embed : Embedder
  search : Vec → Nat → Option QFilter → List Hit
  generate : PyStr → Int → Int → PyStr

/-- The optional server-side filter of `chat` (main.py lines 167-171):
Python's `if req.path_exact:` is false for both `None` and the empty string,
so an equality filter on the stored path is built only from a non-empty
value, sanitized. -/
def buildFilter (path_exact : Option PyStr) : Option QFilter :=
  match path_exact with
  | none => none
  | some pe => if pe = [] then none else some ⟨"path", sanitize pe⟩

/-- The fixed fallback answer "I don't know based on the indexed documents." -/
def fallbackAnswer : PyStr :=
  strCps "I don" ++ [39] ++ strCps "t know based on the indexed documents."

/-- The fixed system instruction of the assembled prompt. -/
def systemPrompt : PyStr :=
  strCps "You are a helpful assistant. Use the provided CONTEXT strictly. If the answer isn" ++
    [39] ++ strCps "t in the context, say you don" ++ [39] ++ strCps "t know."

/-- Decimal rendering of a natural, for the 1-based snippet labels. -/
def natCps (n : Nat) : PyStr := (Nat.toDigits 10 n).map Char.toNat

/-- The snippet label `f"Snippet {i+1}:\n{c}"`. -/
def snippetLabel (i : Nat) (c : PyStr) : PyStr :=
  strCps "Snippet " ++ natCps (i + 1) ++ strCps ":\n" ++ c

/-- The context block: `"\n\n".join(...)` over the labelled surviving snippets. -/
def contextBlock (contexts : List PyStr) : PyStr :=
  List.intercalate (strCps "\n\n")
    ((contexts.enum).map (fun p => snippetLabel p.1 p.2))

/-- The assembled grounded prompt (main.py lines 195-199). -/
def buildPrompt (contexts : List PyStr) (user_q : PyStr) : PyStr :=
  strCps "SYSTEM:\n" ++ systemPrompt ++ strCps "\n\nCONTEXT:\n" ++
    contextBlock contexts ++ strCps "\n\nUSER QUESTION:\n" ++ user_q ++
    strCps "\n\nASSISTANT:"

/-- Python `str.strip()`: remove leading and trailing whitespace. -/
def pyStrip (s : PyStr) : PyStr :=
  ((s.dropWhile isPySpace).reverse.dropWhile isPySpace).reverse

/-- One iteration of the hit-filtering loop of `chat` (main.py lines
175-186): `payload = h.payload or {}`, `txt = sanitize(payload.get("text", "")
or "")`, skip when empty, otherwise append the context and its source
entry. -/
def collectStep (acc : List PyStr × List Source) (h : Hit) :
    List PyStr × List Source :=
  let payload := h.payload.getD ⟨none, none, none⟩
  let txt := sanitize (payload.text.getD [])
  if txt = [] then acc
  else (acc.1 ++ [txt],
        acc.2 ++ [⟨sanitize (payload.path.getD []), payload.chunk_id,
                   h.score⟩])

/-- The hit-filtering loop of `chat`: keep hits whose sanitized stored text is
non-empty, accumulating contexts and sources in order. -/
def collectHits (hits : List Hit) : List PyStr × List Source :=
  hits.foldl collectStep ([], [])

/-- Embedding of `chat` (main.py lines 147-210): sanitize the question, embed it, build the
optional exact-path filter, search, filter degenerate hits, short-circuit to
the fallback answer on zero survivors, otherwise assemble the prompt and call
generation, returning the sanitized trimmed answer with the ordered
sources. -/
def chat (cfg : Config) (env : ChatEnv) (req : ChatRequest) :
    ChatResponse × List Event :=
  let user_q := sanitize req.question
  let embedR := ollama_embed env.embed user_q
  let q_emb := embedR.1
  let q_filter := buildFilter req.path_exact
  let hits := env.search q_emb req.top_k q_filter
  let evs := embedR.2 ++ [Event.searchCall cfg.collection q_emb req.top_k q_filter]
  let cs := collectHits hits
  if cs.1 = [] then (⟨fallbackAnswer, []⟩, evs)
  else
    let prompt := buildPrompt cs.1 user_q
    let answer := pyStrip (sanitize (env.generate prompt req.num_predict req.num_gpu))
    (⟨answer, cs.2⟩, evs ++ [Event.genCall prompt req.num_predict req.num_gpu])

lemma collectHits_eq_nil (hits : List Hit)
    (h : ∀ ht ∈ hits,
        sanitize ((ht.payload.getD ⟨none, none, none⟩).text.getD []) = []) :
    collectHits hits = ([], []) := by
  have key : ∀ (l : List Hit),
      (∀ ht ∈ l,
        sanitize ((ht.payload.getD ⟨none, none, none⟩).text.getD []) = []) →
      ∀ acc : List PyStr × List Source, l.foldl collectStep acc = acc := by
    intro l hl
    induction l with
    | nil => intro acc; rfl
    | cons x xs ih =>
      intro acc
      rw [List.foldl_cons]
      have hx := hl x (by simp)
      have hstep : collectStep acc x = acc := by
        simp only [collectStep, hx, if_pos]
      rw [hstep]
      exact ih (fun y hy => hl y (List.mem_cons_of_mem _ hy)) acc
  rw [collectHits]
  exact key hits h ([], [])

/-- C3: if every retrieved hit has empty sanitized stored text (in particular
when the search returns no hits at all), `chat` answers with the fixed
fallback string and an empty source list, and issues no generation call. -/
theorem C3_chat_fallback (cfg : Config) (env : ChatEnv) (req : ChatRequest)
    (h : ∀ ht ∈ env.search (env.embed (sanitize (sanitize req.question)))
        req.top_k (buildFilter req.path_exact),
        sanitize ((ht.payload.getD ⟨none, none, none⟩).text.getD []) = []) :
    (chat cfg env req).1 = ⟨fallbackAnswer, []⟩ ∧
    ∀ p np ng, Event.genCall p np ng ∉ (chat cfg env req).2 := by
  have hc := collectHits_eq_nil _ h
  simp only [chat, ollama_embed, hc]
  refine ⟨rfl, ?_⟩
  intro p np ng
  simp

/-- C4: `path_contains` is inert — two chat requests identical except in
`path_contains` produce the same constructed filter, the same search call,
and the same response, both in results and in the full event trace. -/
theorem C4_path_contains_inert (cfg : Config) (env : ChatEnv)
    (req : ChatRequest) (pc₁ pc₂ : Option PyStr) :
    buildFilter ({req with path_contains := pc₁} : ChatRequest).path_exact =
      buildFilter ({req with path_contains := pc₂} : ChatRequest).path_exact ∧
    chat cfg env {req with path_contains := pc₁} =
      chat cfg env {req with path_contains := pc₂} :=
  ⟨rfl, rfl⟩

/-- C10: a `path_exact` value equal to the empty string is treated exactly
like an absent filter — no equality filter is built and the search (indeed
the whole chat computation, trace included) is identical to the
unfiltered one. -/
theorem C10_empty_path_exact (cfg : Config) (env : ChatEnv)
    (req : ChatRequest) :
    buildFilter (some []) = none ∧
    chat cfg env {req with path_exact := some []} =
      chat cfg env {req with path_exact := none} :=
  ⟨rfl, rfl⟩

/-- C5: if the document root holds no file with a recognized extension,
`ingest` returns (0, 0), leaves the index state untouched, and issues no
external call at all (no embedding probe, no collection bootstrap, no
upsert). -/
theorem C5_ingest_no_files (cfg : Config) (env : IngestEnv)
    (h : env.fs.filter (fun p =>
        p.isFile && recognizedExts.contains (pyLower p.suffix)) = []) :
    ingest cfg env = (⟨0, 0⟩, env.collections, []) := by
  simp only [ingest, h]
  rfl

/-- Concrete configuration with the source's default values. -/
def cfgW : Config := ⟨"docs", 800, 200⟩

def embedW : Embedder := fun _ => [0]

def chatEnvW : ChatEnv := ⟨embedW, fun _ _ _ => [], fun _ _ _ => []⟩

def reqW : ChatRequest := ⟨strCps "hello", 5, 256, 32, none, none⟩

/-- Witness for C3: a chat against an environment whose search returns no
hits yields the fallback answer, no sources, and no generation call. -/
theorem C3_chat_fallback_witness :
    (chat cfgW chatEnvW reqW).1 = ⟨fallbackAnswer, []⟩ ∧
    ∀ p np ng, Event.genCall p np ng ∉ (chat cfgW chatEnvW reqW).2 :=
  C3_chat_fallback cfgW chatEnvW reqW (by intro ht hmem; simp [chatEnvW] at hmem)

/-- A file whose extension is not recognized by `ingest`. -/
def pyFileW : FileEntry := ⟨strCps "x.py", strCps ".py", true, [], PdfParse.ok []⟩

/-- Witness for C5: a document root holding only an unrecognized file yields
(0, 0) with no external calls. -/
theorem C5_ingest_no_files_witness :
    ingest cfgW ⟨[pyFileW], embedW, []⟩ =
      (⟨0, 0⟩, ([] : QdrantState), []) :=
  C5_ingest_no_files cfgW ⟨[pyFileW], embedW, []⟩ (by decide)

lemma nfcCompose_cons (c : Nat) (h65 : c ≠ 0x65) (t : PyStr) :
    nfcCompose (c :: t) = c :: nfcCompose t := by
  cases t with
  | nil => rfl
  | cons d rest =>
    rw [nfcCompose, if_neg (fun hh => h65 hh.1)]

lemma sanitize_cons (c : Nat) (h65 : c ≠ 0x65) (hE9 : c ≠ 0xE9)
    (hs : isSurrogate c = false) (l : PyStr) :
    sanitize (c :: l) = c :: sanitize l := by
  have hd : nfcDecompose (c :: l) = c :: nfcDecompose l := by
    simp only [nfcDecompose, List.flatMap_cons, if_neg hE9, List.singleton_append]
  simp only [sanitize, pyNFC, hd, nfcCompose_cons c h65, List.filter_cons, hs,
    Bool.not_false, if_pos]

/-- A PDF file whose parse raises, with message "boom". -/
def pdfFailFile : FileEntry :=
  ⟨strCps "doc.pdf", strCps ".pdf", true, [], PdfParse.err (strCps "boom")⟩

/-- A text file whose extracted text is empty. -/
def emptyTxtFile : FileEntry :=
  ⟨strCps "a.txt", strCps ".txt", true, [], PdfParse.ok []⟩

/-- C2 counterexample: extraction for a PDF that fails to parse does NOT
return the empty string — it returns the non-empty marker
"[PDF parse error: boom]" — and ingesting a root holding only that file
indexes one chunk rather than zero. -/
theorem C2_counterexample :
    read_text pdfFailFile ≠ [] ∧
    (ingest cfgW ⟨[pdfFailFile], embedW, []⟩).1.chunks_indexed = 1 := by
  decide

/-- C2 amended: extraction for a PDF whose parse fails returns the sanitized
non-empty marker string "[PDF parse error: ...]" rather than raising — so the
failed file is not skipped but contributes its marker to the index — while a
file whose extracted text is empty is skipped entirely (no points, no embed
calls). -/
theorem C2_read_text_amended :
    (∀ (f : FileEntry) (e : PyStr), pyLower f.suffix = extPdf →
        f.pdfParse = PdfParse.err e →
        read_text f = sanitize (pdfMarker e) ∧ read_text f ≠ []) ∧
    (∀ (cfg : Config) (embed : Embedder) (nid : Nat) (f : FileEntry),
        read_text f = [] → processFile cfg embed nid f = ([], [])) := by
  constructor
  · intro f e hsfx hparse
    have hne : extPdf ≠ extTxt ∧ extPdf ≠ extMd := by decide
    have hrt : read_text f = sanitize (pdfMarker e) := by
      rw [read_text]
      rw [if_neg (by rw [hsfx]; push_neg; exact hne)]
      rw [if_pos hsfx, hparse]
    refine ⟨hrt, ?_⟩
    rw [hrt]
    have hhead : pdfMarker e =
        91 :: (strCps "PDF parse error: " ++ e ++ strCps "]") := by
      simp [pdfMarker, strCps]
    rw [hhead, sanitize_cons 91 (by omega) (by omega) (by decide)]
    simp
  · intro cfg embed nid f hempty
    rw [processFile, if_pos hempty]

/-- Witness for the amended C2 at the concrete failing PDF and empty text
file. -/
theorem C2_read_text_amended_witness :
    (read_text pdfFailFile = sanitize (pdfMarker (strCps "boom")) ∧
      read_text pdfFailFile ≠ []) ∧
    processFile cfgW embedW 0 emptyTxtFile = ([], []) :=
  ⟨C2_read_text_amended.1 pdfFailFile (strCps "boom") (by decide) rfl,
   C2_read_text_amended.2 cfgW embedW 0 emptyTxtFile (by decide)⟩

lemma filter_name_absent (st : QdrantState) (nm : String)
    (h : nm ∉ st.map (fun c => c.name)) :
    st.filter (fun c => c.name = nm) = [] := by
  rw [List.filter_eq_nil_iff]
  intro c hc
  simp only [decide_eq_true_eq]
  intro heq
  exact h (heq ▸ List.mem_map_of_mem _ hc)

lemma filter_name_keep (st : QdrantState) (nm : String)
    (h : nm ∉ st.map (fun c => c.name)) :
    st.filter (fun c => c.name ≠ nm) = st := by
  rw [List.filter_eq_self]
  intro c hc
  simp only [ne_eq, decide_not, Bool.not_eq_eq_eq_not, Bool.not_true,
    decide_eq_false_iff_not]
  intro heq
  exact h (heq ▸ List.mem_map_of_mem _ hc)

lemma filter_name_singleton (st : QdrantState) (nm : String)
    (hnodup : (st.map (fun c => c.name)).Nodup)
    (hmem : nm ∈ st.map (fun c => c.name)) :
    (st.filter (fun c => c.name = nm)).length = 1 := by
  induction st with
  | nil => simp at hmem
  | cons x xs ih =>
    simp only [List.map_cons, List.nodup_cons] at hnodup
    obtain ⟨hx, hxs⟩ := hnodup
    by_cases hxn : x.name = nm
    · rw [List.filter_cons_of_pos (by simp [hxn])]
      rw [filter_name_absent xs nm (hxn ▸ hx)]
      rfl
    · rw [List.filter_cons_of_neg (by simp [hxn])]
      apply ih hxs
      rcases List.mem_map.mp hmem with ⟨c, hc, hcn⟩
      rcases List.mem_cons.mp hc with rfl | hcxs
      · exact absurd hcn hxn
      · exact hcn ▸ List.mem_map_of_mem _ hcxs

lemma ensure_collection_dim (cfg : Config) (embed : Embedder)
    (st : QdrantState) :
    (ensure_collection cfg embed st).1 =
      (embed (sanitize probeText)).length := by
  simp only [ensure_collection, ollama_embed]
  split <;> rfl

lemma ensure_collection_present (cfg : Config) (embed : Embedder)
    (st : QdrantState) (hmem : cfg.collection ∈ st.map (fun c => c.name)) :
    (ensure_collection cfg embed st).2.1 = st ∧
    (ensure_collection cfg embed st).2.2 =
      [Event.embedCall (sanitize probeText), Event.getCollections] := by
  simp only [ensure_collection, ollama_embed]
  rw [if_pos hmem]
  exact ⟨rfl, rfl⟩

lemma ensure_collection_absent (cfg : Config) (embed : Embedder)
    (st : QdrantState) (hmem : cfg.collection ∉ st.map (fun c => c.name)) :
    (ensure_collection cfg embed st).2.1 =
      st ++ [⟨cfg.collection, (embed (sanitize probeText)).length,
              Metric.cosine⟩] := by
  simp only [ensure_collection, ollama_embed]
  rw [if_neg hmem]
  simp only [recreate_collection]
  rw [filter_name_keep st _ hmem]

/-- C9: `ensure_collection` lists the existing collections and creates the
target only when its name is absent; when present it changes nothing and
issues no create call.  Hence (over states with distinct collection names,
the index's invariant) two consecutive calls with an unchanged provider leave
exactly one collection with the target name, the second call is a no-op on
the state, and both calls probe the same dimensionality. -/
theorem C9_ensure_collection_idempotent (cfg : Config) (embed : Embedder)
    (st : QdrantState) (hnodup : (st.map (fun c => c.name)).Nodup) :
    (ensure_collection cfg embed
        (ensure_collection cfg embed st).2.1).2.1 =
      (ensure_collection cfg embed st).2.1 ∧
    (((ensure_collection cfg embed st).2.1).filter
        (fun c => c.name = cfg.collection)).length = 1 ∧
    (ensure_collection cfg embed (ensure_collection cfg embed st).2.1).1 =
      (ensure_collection cfg embed st).1 ∧
    (cfg.collection ∈ st.map (fun c => c.name) →
        (ensure_collection cfg embed st).2.1 = st ∧
        ∀ nm d, Event.createCollection nm d ∉
          (ensure_collection cfg embed st).2.2) ∧
    (cfg.collection ∉ st.map (fun c => c.name) →
        (ensure_collection cfg embed st).2.1 =
          st ++ [⟨cfg.collection, (ensure_collection cfg embed st).1,
                  Metric.cosine⟩]) := by
  by_cases hmem : cfg.collection ∈ st.map (fun c => c.name)
  · obtain ⟨h1, h2⟩ := ensure_collection_present cfg embed st hmem
    refine ⟨?_, ?_, ?_, fun _ => ⟨h1, ?_⟩, fun hab => absurd hmem hab⟩
    · rw [h1]
      exact h1
    · rw [h1]
      exact filter_name_singleton st cfg.collection hnodup hmem
    · rw [h1]
    · rw [h2]
      intro nm d
      simp
  · have h1 := ensure_collection_absent cfg embed st hmem
    have hmem2 : cfg.collection ∈
        ((ensure_collection cfg embed st).2.1).map (fun c => c.name) := by
      rw [h1]
      simp
    refine ⟨?_, ?_, ?_, fun hin => absurd hin hmem, fun _ => ?_⟩
    · exact (ensure_collection_present cfg embed _ hmem2).1
    · rw [h1, List.filter_append, filter_name_absent st cfg.collection hmem]
      simp
    · rw [ensure_collection_dim, ensure_collection_dim]
    · rw [h1, ensure_collection_dim]

/-- Witness for C9 starting from an empty collection table. -/
theorem C9_ensure_collection_idempotent_witness :
    (ensure_collection cfgW embedW
        (ensure_collection cfgW embedW []).2.1).2.1 =
      (ensure_collection cfgW embedW []).2.1 ∧
    (((ensure_collection cfgW embedW []).2.1).filter
        (fun c => c.name = cfgW.collection)).length = 1 :=
  ⟨(C9_ensure_collection_idempotent cfgW embedW [] (by simp)).1,
   (C9_ensure_collection_idempotent cfgW embedW [] (by simp)).2.1⟩

end KubeChat
